import Mathlib

/-!
Verification development for the R290 heat-pump integration
(`custom_components/r290_heatpump`): a shallow embedding in Lean 4 of the
transport/batching engine (`hub.py`) and the adaptive setpoint control engine
(`temperature_curve.py`), together with theorems settling the specification
claims about them.

Python floats are modelled as exact rationals (`ℚ`); register addresses and
counts as `Nat`; register values as `ℤ`.  Fallible calls are modelled with
`Option`/`Except`.
-/

namespace R290

/-- Python `round(x)` (no digits argument): round half to even, as `ℤ`.
Used by `_calc` and by the write coordinator in `temperature_curve.py`. -/
def pyRound (x : ℚ) : ℤ :=
  let f : ℤ := ⌊x⌋
  let frac : ℚ := x - (f : ℚ)
  if frac < 1/2 then f
  else if 1/2 < frac then f + 1
  else if Even f then f else f + 1

/-- Python `round(x, 3)`: round half to even at three decimal places. -/
def pyRound3 (x : ℚ) : ℚ := (pyRound (x * 1000) : ℚ) / 1000

/-- Python `math.isclose(a, b, abs_tol=t)` with the default
`rel_tol = 1e-9`: `|a-b| <= max(rel_tol * max(|a|,|b|), abs_tol)`. -/
def PyClose (absTol a b : ℚ) : Prop :=
  |a - b| ≤ max ((1 / 10 ^ 9) * max |a| |b|) absTol

instance (absTol a b : ℚ) : Decidable (PyClose absTol a b) := by
  unfold PyClose
  infer_instance

/-- `R290HeatPumpTemperatureCurveSensor._calc_float`
(temperature_curve.py lines 131-140): the piecewise-linear heating curve. -/
def calc_float (t_out tmin tmax fmin fmax : ℚ) : ℚ :=
  if t_out ≤ tmin then fmax
  else if t_out ≥ tmax then fmin
  else if tmin - tmax = 0 then fmin
  else fmin + ((fmax - fmin) / (tmin - tmax)) * (t_out - tmax)

/-- `R290HeatPumpTemperatureCurveSensor._calc`
(temperature_curve.py lines 120-129): the heating curve rounded to `int`
at every branch. -/
def calc_int (t_out tmin tmax fmin fmax : ℚ) : ℤ :=
  if t_out ≤ tmin then pyRound fmax
  else if t_out ≥ tmax then pyRound fmin
  else if tmin - tmax = 0 then pyRound fmin
  else pyRound (fmin + ((fmax - fmin) / (tmin - tmax)) * (t_out - tmax))

lemma calc_float_of_le (t tmin tmax fmin fmax : ℚ) (h : t ≤ tmin) :
    calc_float t tmin tmax fmin fmax = fmax := by
  simp [calc_float, h]

lemma calc_float_of_ge (t tmin tmax fmin fmax : ℚ) (hlt : tmin < tmax) (h : tmax ≤ t) :
    calc_float t tmin tmax fmin fmax = fmin := by
  have h1 : ¬ t ≤ tmin := by
    intro hc
    linarith
  unfold calc_float
  rw [if_neg h1, if_pos (show t ≥ tmax from h)]

lemma calc_float_interior (t tmin tmax fmin fmax : ℚ) (h1 : ¬ t ≤ tmin) (h2 : ¬ t ≥ tmax)
    (hne : tmin - tmax ≠ 0) :
    calc_float t tmin tmax fmin fmax
      = fmin + ((fmax - fmin) / (tmin - tmax)) * (t - tmax) := by
  simp [calc_float, h1, h2, hne]

lemma calc_float_slope_nonpos (tmin tmax fmin fmax : ℚ) (hlt : tmin < tmax) (hf : fmin ≤ fmax) :
    (fmax - fmin) / (tmin - tmax) ≤ 0 := by
  rw [div_nonpos_iff]
  left
  exact ⟨by linarith, by linarith⟩

lemma calc_float_bounds (t tmin tmax fmin fmax : ℚ) (hlt : tmin < tmax) (hf : fmin ≤ fmax) :
    fmin ≤ calc_float t tmin tmax fmin fmax ∧ calc_float t tmin tmax fmin fmax ≤ fmax := by
  have hne : tmin - tmax ≠ 0 := by intro h; linarith
  have hs := calc_float_slope_nonpos tmin tmax fmin fmax hlt hf
  rcases le_or_lt t tmin with h1 | h1
  · rw [calc_float_of_le t tmin tmax fmin fmax h1]
    exact ⟨hf, le_refl _⟩
  rcases le_or_lt tmax t with h2 | h2
  · rw [calc_float_of_ge t tmin tmax fmin fmax hlt h2]
    exact ⟨le_refl _, hf⟩
  have i1 : ¬ t ≤ tmin := not_le.mpr h1
  have i2 : ¬ t ≥ tmax := not_le.mpr h2
  rw [calc_float_interior t tmin tmax fmin fmax i1 i2 hne]
  constructor
  · have hnn : 0 ≤ ((fmax - fmin) / (tmin - tmax)) * (t - tmax) :=
      mul_nonneg_of_nonpos_of_nonpos hs (by linarith)
    linarith
  · have hmul : ((fmax - fmin) / (tmin - tmax)) * (t - tmax)
        ≤ ((fmax - fmin) / (tmin - tmax)) * (tmin - tmax) :=
      mul_le_mul_of_nonpos_left (by linarith) hs
    have hcancel : ((fmax - fmin) / (tmin - tmax)) * (tmin - tmax) = fmax - fmin :=
      div_mul_cancel₀ _ hne
    linarith

lemma calc_float_antitone (tmin tmax fmin fmax t1 t2 : ℚ) (hlt : tmin < tmax)
    (hf : fmin ≤ fmax) (h1 : tmin ≤ t1) (h12 : t1 ≤ t2) (h2 : t2 ≤ tmax) :
    calc_float t2 tmin tmax fmin fmax ≤ calc_float t1 tmin tmax fmin fmax := by
  have hne : tmin - tmax ≠ 0 := by intro h; linarith
  have hs := calc_float_slope_nonpos tmin tmax fmin fmax hlt hf
  rcases le_or_lt t1 tmin with c1 | c1
  · rw [calc_float_of_le t1 tmin tmax fmin fmax c1]
    exact (calc_float_bounds t2 tmin tmax fmin fmax hlt hf).2
  rcases le_or_lt tmax t2 with c2 | c2
  · rw [calc_float_of_ge t2 tmin tmax fmin fmax hlt c2]
    exact (calc_float_bounds t1 tmin tmax fmin fmax hlt hf).1
  have i1 : ¬ t1 ≤ tmin := not_le.mpr c1
  have i2 : ¬ t2 ≤ tmin := not_le.mpr (lt_of_lt_of_le c1 h12)
  have j2 : ¬ t2 ≥ tmax := not_le.mpr c2
  have j1 : ¬ t1 ≥ tmax := not_le.mpr (lt_of_le_of_lt h12 c2)
  rw [calc_float_interior t1 tmin tmax fmin fmax i1 j1 hne,
      calc_float_interior t2 tmin tmax fmin fmax i2 j2 hne]
  have hmul : ((fmax - fmin) / (tmin - tmax)) * (t2 - tmax)
      ≤ ((fmax - fmin) / (tmin - tmax)) * (t1 - tmax) :=
    mul_le_mul_of_nonpos_left (by linarith) hs
  linarith

/-- C2 (amended): with `t_out_min < t_out_max`, `_calc_float` returns
`t_flow_max` for `t ≤ t_out_min` and `t_flow_min` for `t ≥ t_out_max`; it is
monotonically non-increasing on `[t_out_min, t_out_max]` **provided
additionally `t_flow_min ≤ t_flow_max`** (with inverted flow parameters the
curve is increasing instead). -/
theorem C2_curve_evaluator (tmin tmax fmin fmax : ℚ) (hlt : tmin < tmax) :
    (∀ t, t ≤ tmin → calc_float t tmin tmax fmin fmax = fmax)
    ∧ (∀ t, tmax ≤ t → calc_float t tmin tmax fmin fmax = fmin)
    ∧ (fmin ≤ fmax → ∀ t1 t2, tmin ≤ t1 → t1 ≤ t2 → t2 ≤ tmax →
        calc_float t2 tmin tmax fmin fmax ≤ calc_float t1 tmin tmax fmin fmax) := by
  refine ⟨fun t ht => calc_float_of_le t tmin tmax fmin fmax ht,
          fun t ht => calc_float_of_ge t tmin tmax fmin fmax hlt ht,
          fun hf t1 t2 ha hb hc => calc_float_antitone tmin tmax fmin fmax t1 t2 hlt hf ha hb hc⟩

/-- C2 counterexample: with `t_out_min = 0 < 10 = t_out_max` but the flow
parameters inverted (`t_flow_min = 50 > 25 = t_flow_max`), the curve is
strictly increasing on the interior (`curve 2 = 30 < 45 = curve 8`), so the
monotone-non-increasing part of the claim fails without a
`t_flow_min ≤ t_flow_max` hypothesis. -/
theorem C2_counterexample :
    (0:ℚ) < 10 ∧ (0:ℚ) ≤ 2 ∧ (2:ℚ) ≤ 8 ∧ (8:ℚ) ≤ 10
    ∧ calc_float 2 0 10 50 25 < calc_float 8 0 10 50 25 := by
  norm_num [calc_float]

/-- Witness for `C2_curve_evaluator` at
`(t_out_min, t_out_max, t_flow_min, t_flow_max) = (0, 10, 25, 50)`. -/
theorem C2_curve_evaluator_witness :
    calc_float (-5) 0 10 25 50 = 50 ∧ calc_float 12 0 10 25 50 = 25
    ∧ calc_float 8 0 10 25 50 ≤ calc_float 3 0 10 25 50 := by
  obtain ⟨hlo, hhi, hmono⟩ := C2_curve_evaluator 0 10 25 50 (by norm_num)
  exact ⟨hlo (-5) (by norm_num), hhi 12 (by norm_num),
         hmono (by norm_num) 3 8 (by norm_num) (by norm_num) (by norm_num)⟩

/-- C3 (amended): in the degenerate case `t_out_min = t_out_max = c`, both
`_calc_float` and `_calc` are total (no error is signalled: the
division-by-zero guard is unreachable), but they return `t_flow_max`
(rounded, for `_calc`) whenever `t ≤ c`, and `t_flow_min` only for `t > c`. -/
theorem C3_degenerate_curve (t fmin fmax c : ℚ) :
    (t ≤ c → calc_float t c c fmin fmax = fmax ∧ calc_int t c c fmin fmax = pyRound fmax)
    ∧ (c < t → calc_float t c c fmin fmax = fmin ∧ calc_int t c c fmin fmax = pyRound fmin) := by
  constructor
  · intro h
    constructor <;> simp [calc_float, calc_int, h]
  · intro h
    have h1 : ¬ t ≤ c := not_le.mpr h
    have h2 : t ≥ c := le_of_lt h
    constructor <;> simp [calc_float, calc_int, h1, h2]

/-- C3 counterexample: with `t_out_min = t_out_max = 10`, `t_flow_min = 25`,
`t_flow_max = 50` and outdoor temperature `5 ≤ 10`, both evaluators return
`t_flow_max = 50`, not `t_flow_min = 25` as the claim states. -/
theorem C3_counterexample :
    calc_float 5 10 10 25 50 = 50 ∧ (50:ℚ) ≠ 25
    ∧ calc_int 5 10 10 25 50 = 50 ∧ (50:ℤ) ≠ 25 := by
  refine ⟨?_, by norm_num, ?_, by norm_num⟩
  · norm_num [calc_float]
  · norm_num [calc_int, pyRound]

/-- Witness for `C3_degenerate_curve` at `t = 5 ≤ c = 10`. -/
theorem C3_degenerate_curve_witness :
    calc_float 5 10 10 25 50 = 50 ∧ calc_int 5 10 10 25 50 = pyRound 50 := by
  exact (C3_degenerate_curve 5 25 50 10).1 (by norm_num)

/-- The inner scanning loop of `ModbusBatchCoordinator._async_update_data`
(hub.py lines 356-363): the current run `[start..endA]` is extended while the
next sorted address is exactly `endA + 1` **and** the extended count
`addresses[j] - start + 1` stays within `maxCount`; on a break the run is
emitted as the block `(start, count)` and the scan restarts at the next
address. -/
def scanBlocks (maxCount : Nat) : Nat → Nat → List Nat → List (Nat × Nat)
  | start, endA, [] => [(start, endA - start + 1)]
  | start, endA, a :: rest =>
    if a = endA + 1 ∧ a - start + 1 ≤ maxCount then
      scanBlocks maxCount start a rest
    else
      (start, endA - start + 1) :: scanBlocks maxCount a a rest

/-- The block-coalescing step of `ModbusBatchCoordinator._async_update_data`
(hub.py lines 350-363) applied to the ascending-sorted address list
(`sorted(self._addresses)`). -/
def coalesce (maxCount : Nat) : List Nat → List (Nat × Nat)
  | [] => []
  | a :: rest => scanBlocks maxCount a a rest

/-- The address range covered by a block `(start, count)`. -/
def blockRange (b : Nat × Nat) : List Nat := List.range' b.1 b.2

lemma scanBlocks_flatten (maxCount : Nat) :
    ∀ (rest : List Nat) (start endA : Nat), start ≤ endA →
      List.Sorted (· < ·) (endA :: rest) →
      ((scanBlocks maxCount start endA rest).map blockRange).flatten
        = List.range' start (endA + 1 - start) ++ rest
  | [], start, endA, hse, _ => by
      simp only [scanBlocks, List.map_cons, List.map_nil, List.flatten_cons,
        List.flatten_nil, List.append_nil, blockRange]
      congr 1
      omega
  | a :: rest, start, endA, hse, hsort => by
      have ha : endA < a := (List.sorted_cons.mp hsort).1 a (by simp)
      have hsort' : List.Sorted (· < ·) (a :: rest) := (List.sorted_cons.mp hsort).2
      by_cases hcond : a = endA + 1 ∧ a - start + 1 ≤ maxCount
      · have ih := scanBlocks_flatten maxCount rest start a (by omega) hsort'
        simp only [scanBlocks, if_pos hcond, ih]
        have h1 : a + 1 - start = (endA + 1 - start) + 1 := by omega
        have h2 : start + 1 * (endA + 1 - start) = a := by omega
        rw [h1, List.range'_concat, h2, List.append_assoc, List.singleton_append]
      · have ih := scanBlocks_flatten maxCount rest a a (le_refl a) hsort'
        simp only [scanBlocks, if_neg hcond, List.map_cons, List.flatten_cons,
          blockRange, ih]
        have h1 : a + 1 - a = 1 := by omega
        have h2 : endA - start + 1 = endA + 1 - start := by omega
        rw [h1, h2, List.range'_one, List.singleton_append]

lemma scanBlocks_counts (maxCount : Nat) :
    ∀ (rest : List Nat) (start endA : Nat), start ≤ endA →
      endA - start + 1 ≤ maxCount → 1 ≤ maxCount →
      ∀ b ∈ scanBlocks maxCount start endA rest, 1 ≤ b.2 ∧ b.2 ≤ maxCount
  | [], start, endA, hse, hle, hm, b, hb => by
      simp only [scanBlocks, List.mem_singleton] at hb
      subst hb
      exact ⟨by omega, hle⟩
  | a :: rest, start, endA, hse, hle, hm, b, hb => by
      by_cases hcond : a = endA + 1 ∧ a - start + 1 ≤ maxCount
      · rw [scanBlocks, if_pos hcond] at hb
        exact scanBlocks_counts maxCount rest start a (by omega) (by omega) hm b hb
      · rw [scanBlocks, if_neg hcond] at hb
        rcases List.mem_cons.mp hb with hb | hb
        · subst hb
          exact ⟨by omega, hle⟩
        · exact scanBlocks_counts maxCount rest a a (le_refl a) (by omega) hm b hb

lemma scanBlocks_start_le (maxCount : Nat) :
    ∀ (rest : List Nat) (start endA : Nat), start ≤ endA →
      List.Sorted (· < ·) (endA :: rest) →
      ∀ b ∈ scanBlocks maxCount start endA rest, start ≤ b.1
  | [], start, endA, _, _, b, hb => by
      simp only [scanBlocks, List.mem_singleton] at hb
      subst hb
      exact le_refl _
  | a :: rest, start, endA, hse, hsort, b, hb => by
      have ha : endA < a := (List.sorted_cons.mp hsort).1 a (by simp)
      have hsort' : List.Sorted (· < ·) (a :: rest) := (List.sorted_cons.mp hsort).2
      by_cases hcond : a = endA + 1 ∧ a - start + 1 ≤ maxCount
      · rw [scanBlocks, if_pos hcond] at hb
        exact scanBlocks_start_le maxCount rest start a (by omega) hsort' b hb
      · rw [scanBlocks, if_neg hcond] at hb
        rcases List.mem_cons.mp hb with hb | hb
        · subst hb
          exact le_refl _
        · have := scanBlocks_start_le maxCount rest a a (le_refl a) hsort' b hb
          omega

lemma scanBlocks_pairwise (maxCount : Nat) :
    ∀ (rest : List Nat) (start endA : Nat), start ≤ endA →
      List.Sorted (· < ·) (endA :: rest) →
      (scanBlocks maxCount start endA rest).Pairwise (fun b c => b.1 + b.2 ≤ c.1)
  | [], start, endA, _, _ => by
      simp [scanBlocks]
  | a :: rest, start, endA, hse, hsort => by
      have ha : endA < a := (List.sorted_cons.mp hsort).1 a (by simp)
      have hsort' : List.Sorted (· < ·) (a :: rest) := (List.sorted_cons.mp hsort).2
      by_cases hcond : a = endA + 1 ∧ a - start + 1 ≤ maxCount
      · rw [scanBlocks, if_pos hcond]
        exact scanBlocks_pairwise maxCount rest start a (by omega) hsort'
      · rw [scanBlocks, if_neg hcond]
        refine List.pairwise_cons.mpr ⟨?_, scanBlocks_pairwise maxCount rest a a (le_refl a) hsort'⟩
        intro c hc
        have := scanBlocks_start_le maxCount rest a a (le_refl a) hsort' c hc
        simp only
        omega

lemma scanBlocks_maximal (maxCount : Nat) :
    ∀ (rest : List Nat) (start endA : Nat), start ≤ endA →
      endA - start + 1 ≤ maxCount → 1 ≤ maxCount →
      List.Sorted (· < ·) (endA :: rest) →
      ∀ b ∈ scanBlocks maxCount start endA rest,
        b.2 = maxCount ∨ b.1 + b.2 ∉ List.range' start (endA + 1 - start) ++ rest
  | [], start, endA, hse, hle, _, _, b, hb => by
      simp only [scanBlocks, List.mem_singleton] at hb
      subst hb
      right
      simp only [List.append_nil, List.mem_range'_1]
      omega
  | a :: rest, start, endA, hse, hle, hm, hsort, b, hb => by
      have ha : endA < a := (List.sorted_cons.mp hsort).1 a (by simp)
      have hsort' : List.Sorted (· < ·) (a :: rest) := (List.sorted_cons.mp hsort).2
      have hrest : ∀ x ∈ rest, a < x := (List.sorted_cons.mp hsort').1
      by_cases hcond : a = endA + 1 ∧ a - start + 1 ≤ maxCount
      · obtain ⟨hA, hC⟩ := hcond
        rw [scanBlocks, if_pos ⟨hA, hC⟩] at hb
        rcases scanBlocks_maximal maxCount rest start a (by omega) (by omega) hm hsort' b hb
          with h | h
        · exact Or.inl h
        · right
          intro hmem
          apply h
          rcases List.mem_append.mp hmem with hm1 | hm2
          · refine List.mem_append.mpr (Or.inl ?_)
            rw [List.mem_range'_1] at hm1 ⊢
            omega
          · rcases List.mem_cons.mp hm2 with he | he
            · refine List.mem_append.mpr (Or.inl ?_)
              rw [List.mem_range'_1]
              omega
            · exact List.mem_append.mpr (Or.inr he)
      · rw [scanBlocks, if_neg hcond] at hb
        rcases List.mem_cons.mp hb with hb | hb
        · subst hb
          by_cases hA : a = endA + 1
          · have hnc : ¬ (a - start + 1 ≤ maxCount) := fun hc => hcond ⟨hA, hc⟩
            left
            show endA - start + 1 = maxCount
            omega
          · right
            show start + (endA - start + 1) ∉ List.range' start (endA + 1 - start) ++ a :: rest
            intro hmem
            rcases List.mem_append.mp hmem with hm1 | hm2
            · rw [List.mem_range'_1] at hm1
              omega
            · rcases List.mem_cons.mp hm2 with he | he
              · omega
              · have := hrest _ he
                omega
        · have ih := scanBlocks_maximal maxCount rest a a (le_refl a) (by omega) hm hsort' b hb
          have hbs := scanBlocks_start_le maxCount rest a a (le_refl a) hsort' b hb
          have hbc := scanBlocks_counts maxCount rest a a (le_refl a) (by omega) hm b hb
          rcases ih with h | h
          · exact Or.inl h
          · right
            intro hmem
            apply h
            rcases List.mem_append.mp hmem with hm1 | hm2
            · exfalso
              rw [List.mem_range'_1] at hm1
              omega
            · rcases List.mem_cons.mp hm2 with he | he
              · exfalso
                omega
              · exact List.mem_append.mpr (Or.inr he)

/-- C1: for every strictly ascending address list (the `sorted(set)` of
addresses of interest) and every maximum block size `≥ 1`, the coalescing
step partitions the addresses into blocks `(start, count)` such that: the
concatenation of the block ranges is exactly the input list (so the ranges
are pairwise disjoint, their union is the input set, and blocks are emitted
in ascending start order); every count is within `[1, maxCount]`; blocks are
pairwise ordered and disjoint (`start + count ≤ next start`); and each block
is maximal (its count hits `maxCount`, or the next address past its range is
not in the input). -/
theorem C1_block_coalescing (maxCount : Nat) (l : List Nat)
    (hs : List.Sorted (· < ·) l) (hm : 1 ≤ maxCount) :
    (((coalesce maxCount l).map blockRange).flatten = l)
    ∧ (∀ b ∈ coalesce maxCount l, 1 ≤ b.2 ∧ b.2 ≤ maxCount)
    ∧ (coalesce maxCount l).Pairwise (fun b c => b.1 + b.2 ≤ c.1)
    ∧ (∀ b ∈ coalesce maxCount l, b.2 = maxCount ∨ b.1 + b.2 ∉ l) := by
  cases l with
  | nil => simp [coalesce]
  | cons a rest =>
    have hflat := scanBlocks_flatten maxCount rest a a (le_refl a) hs
    have hone : a + 1 - a = 1 := by omega
    rw [hone, List.range'_one, List.singleton_append] at hflat
    refine ⟨hflat, ?_, scanBlocks_pairwise maxCount rest a a (le_refl a) hs, ?_⟩
    · exact scanBlocks_counts maxCount rest a a (le_refl a) (by omega) hm
    · intro b hb
      have := scanBlocks_maximal maxCount rest a a (le_refl a) (by omega) hm hs b hb
      rwa [hone, List.range'_one, List.singleton_append] at this

/-- Witness for `C1_block_coalescing` on the address set
`{1, 2, 3, 4, 10, 11, 30}` with maximum block size `3`:
the blocks are `(1,3), (4,1), (10,2), (30,1)`. -/
theorem C1_block_coalescing_witness :
    coalesce 3 [1, 2, 3, 4, 10, 11, 30] = [(1, 3), (4, 1), (10, 2), (30, 1)]
    ∧ (((coalesce 3 [1, 2, 3, 4, 10, 11, 30]).map blockRange).flatten
        = [1, 2, 3, 4, 10, 11, 30])
    ∧ (∀ b ∈ coalesce 3 [1, 2, 3, 4, 10, 11, 30], 1 ≤ b.2 ∧ b.2 ≤ 3) := by
  have h := C1_block_coalescing 3 [1, 2, 3, 4, 10, 11, 30] (by decide) (by decide)
  exact ⟨by decide, h.1, h.2.1⟩

/-- The sign with a `0.01` zero band, as computed in `_compute_pv_offset`
(temperature_curve.py lines 392-393): `0` when the value is `math.isclose`
to zero with `abs_tol=0.01`, else `copysign(1.0, x)`. -/
def toleranceSign (x : ℚ) : ℚ :=
  if PyClose (1/100) x 0 then 0 else if x < 0 then -1 else 1

/-- The per-engine offset state of `R290HeatPumpTemperatureCurveSensor`:
committed value, last observed candidate, candidate-since timestamp, pending
candidate and remaining hold time (the `_pv_*` respectively `_external_*`
fields). -/
structure OffsetState where
  current : ℚ
  lastCandidate : Option ℚ
  candidateSince : Option ℚ
  pending : Option ℚ
  holdRemaining : ℚ

/-- Candidate bookkeeping shared by both offset engines
(temperature_curve.py lines 378-382 and 518-522): a changed candidate
restarts the candidate-since clock, and a missing clock is initialised. -/
def trackCandidate (candidate now : ℚ) (s : OffsetState) : OffsetState :=
  let s1 := if s.lastCandidate ≠ some candidate then
      { s with lastCandidate := some candidate, candidateSince := some now } else s
  if s1.candidateSince = none then { s1 with candidateSince := some now } else s1

/-- `hold_seconds = max(0.0, hold_minutes) * 60.0` (temperature_curve.py
lines 376 and 516). -/
def holdSecondsOf (holdMinutes : ℚ) : ℚ := max 0 holdMinutes * 60

/-- Committing a candidate: the committed value becomes the candidate, the
pending value and hold timer are cleared and the candidate-since clock
restarts (temperature_curve.py lines 397-404, 412-419, 537-543). -/
def commitNow (candidate now : ℚ) (s : OffsetState) : OffsetState :=
  { s with
    current := candidate
    pending := none
    candidateSince := some now
    holdRemaining := 0 }

/-- The hold gate shared by both engines (temperature_curve.py lines 406-423
and 531-547): commit when the hold is disabled or the candidate has been
stable for the hold duration, otherwise record it as pending with the
remaining hold time. -/
def holdOrCommit (holdSeconds candidate now : ℚ) (s : OffsetState) : OffsetState :=
  let elapsed := max 0 (now - s.candidateSince.getD now)
  let remaining := if 0 < holdSeconds then max 0 (holdSeconds - elapsed) else 0
  if holdSeconds ≤ 0 ∨ remaining ≤ 0 then commitNow candidate now s
  else { s with pending := some candidate, holdRemaining := remaining }

/-- The committed (commit=True) evaluation of the PV offset engine for an
already-computed clamped candidate: `_compute_pv_offset`
(temperature_curve.py lines 366-423). -/
def pvCommitStep (holdMinutes candidate now : ℚ) (s : OffsetState) : OffsetState :=
  let s2 := trackCandidate candidate now s
  if PyClose (1/100) candidate s2.current then
    { s2 with pending := none, holdRemaining := 0 }
  else if |candidate| > |s2.current| + 1/10^6
      ∨ (toleranceSign candidate ≠ toleranceSign s2.current
         ∧ ¬(toleranceSign candidate = 0 ∧ toleranceSign s2.current = 0)) then
    commitNow candidate now s2
  else
    holdOrCommit (holdSecondsOf holdMinutes) candidate now s2

/-- The committed (commit=True) evaluation of the external offset engine for
an already-computed clamped candidate: `_compute_external_offset`
(temperature_curve.py lines 508-547).  Note: unlike the PV engine it has no
magnitude/sign fast path. -/
def externalCommitStep (holdMinutes candidate now : ℚ) (s : OffsetState) : OffsetState :=
  let s2 := trackCandidate candidate now s
  if PyClose (1/100) candidate s2.current then
    { s2 with pending := none, holdRemaining := 0 }
  else
    holdOrCommit (holdSecondsOf holdMinutes) candidate now s2

lemma trackCandidate_current (candidate now : ℚ) (s : OffsetState) :
    (trackCandidate candidate now s).current = s.current := by
  unfold trackCandidate
  dsimp only
  split_ifs <;> rfl

lemma trackCandidate_stable (candidate now : ℚ) (s : OffsetState)
    (hl : s.lastCandidate = some candidate) (t0 : ℚ) (hc : s.candidateSince = some t0) :
    trackCandidate candidate now s = s := by
  simp [trackCandidate, hl, hc]

lemma trackCandidate_new (candidate now : ℚ) (s : OffsetState)
    (hl : s.lastCandidate ≠ some candidate) :
    trackCandidate candidate now s
      = { s with lastCandidate := some candidate, candidateSince := some now } := by
  unfold trackCandidate
  dsimp only
  rw [if_pos hl, if_neg (by simp)]

lemma holdOrCommit_holding (holdSeconds candidate now t0 : ℚ) (s : OffsetState)
    (hsince : s.candidateSince = some t0) (hpos : 0 < holdSeconds)
    (hlt : now - t0 < holdSeconds) :
    holdOrCommit holdSeconds candidate now s
      = { s with
          pending := some candidate
          holdRemaining := max 0 (holdSeconds - max 0 (now - t0)) } := by
  unfold holdOrCommit
  rw [hsince]
  dsimp only [Option.getD_some]
  have h1 : max 0 (now - t0) < holdSeconds := max_lt hpos hlt
  rw [if_pos hpos, if_neg ?hcond]
  case hcond =>
    push_neg
    exact ⟨hpos, lt_max_of_lt_right (by linarith)⟩

lemma holdOrCommit_commit (holdSeconds candidate now t0 : ℚ) (s : OffsetState)
    (hsince : s.candidateSince = some t0) (hge : holdSeconds ≤ now - t0) :
    holdOrCommit holdSeconds candidate now s = commitNow candidate now s := by
  unfold holdOrCommit
  rw [hsince]
  dsimp only [Option.getD_some]
  have hmax : holdSeconds ≤ max 0 (now - t0) := le_trans hge (le_max_right _ _)
  by_cases hpos : 0 < holdSeconds
  · rw [if_pos hpos, if_pos (Or.inr (max_le (le_refl 0) (by linarith)))]
  · rw [if_neg hpos, if_pos (Or.inr (le_refl 0))]

/-- C5 (amended): the PV offset engine commits immediately — regardless of
the hold duration — whenever the candidate is not `isclose` (abs_tol 0.01)
to the committed value and its magnitude exceeds the committed magnitude by
more than `1e-6` or its tolerance-based sign differs.  The external offset
engine has no such immediacy rule: with a stable candidate inside the hold
window it keeps the previously committed value even when the candidate has
larger magnitude or opposite sign. -/
theorem C5_offset_immediacy :
    (∀ holdMinutes candidate now : ℚ, ∀ s : OffsetState,
        ¬ PyClose (1/100) candidate s.current →
        (|candidate| > |s.current| + 1/10^6
          ∨ toleranceSign candidate ≠ toleranceSign s.current) →
        (pvCommitStep holdMinutes candidate now s).current = candidate)
    ∧ (∀ holdMinutes candidate now t0 : ℚ, ∀ s : OffsetState,
        s.lastCandidate = some candidate → s.candidateSince = some t0 →
        ¬ PyClose (1/100) candidate s.current →
        0 < holdMinutes → now - t0 < holdMinutes * 60 →
        (externalCommitStep holdMinutes candidate now s).current = s.current) := by
  constructor
  · intro holdMinutes candidate now s hclose hfast
    have hc : (trackCandidate candidate now s).current = s.current :=
      trackCandidate_current candidate now s
    unfold pvCommitStep
    dsimp only
    rw [hc, if_neg hclose, if_pos ?hfast]
    case hfast =>
      rcases hfast with h | h
      · exact Or.inl h
      · refine Or.inr ⟨h, ?_⟩
        rintro ⟨h1, h2⟩
        exact h (h1.trans h2.symm)
    rfl
  · intro holdMinutes candidate now t0 s hl hsince hclose hm hnow
    have hhs : holdSecondsOf holdMinutes = holdMinutes * 60 := by
      unfold holdSecondsOf
      rw [max_eq_right hm.le]
    unfold externalCommitStep
    dsimp only
    rw [trackCandidate_stable candidate now s hl t0 hsince, if_neg hclose, hhs,
      holdOrCommit_holding (holdMinutes * 60) candidate now t0 s hsince
        (by positivity) hnow]

/-- C5 counterexample: the external offset engine with committed value `1.0`,
a stable candidate `3.0` (larger magnitude, same sign) and a 5-minute hold
does **not** update the committed value on the evaluation: it stays `1.0`. -/
theorem C5_counterexample :
    |(3:ℚ)| > |(1:ℚ)| ∧ (0:ℚ) < 1 ∧ (0:ℚ) < 3
    ∧ (externalCommitStep 5 3 0 ⟨1, some 3, some 0, none, 0⟩).current = 1
    ∧ (1:ℚ) ≠ 3 := by
  norm_num [externalCommitStep, trackCandidate, holdOrCommit, holdSecondsOf,
    commitNow, PyClose]

/-- Witness for `C5_offset_immediacy`: the PV engine escalates `1.0 → 3.0`
immediately, and the external engine holds `1.0` against candidate `3.0`. -/
theorem C5_offset_immediacy_witness :
    (pvCommitStep 15 3 0 ⟨1, some 3, some 0, none, 0⟩).current = 3
    ∧ (externalCommitStep 5 3 60 ⟨1, some 3, some 0, none, 0⟩).current = 1 := by
  constructor
  · exact C5_offset_immediacy.1 15 3 0 ⟨1, some 3, some 0, none, 0⟩
      (by norm_num [PyClose]) (Or.inl (by norm_num))
  · exact C5_offset_immediacy.2 5 3 60 0 ⟨1, some 3, some 0, none, 0⟩ rfl rfl
      (by norm_num [PyClose]) (by norm_num) (by norm_num)

/-- The invariant carried through C6's scenario: committed value `3.0`,
last observed candidate `1.0`, candidate-since clock at `t0`. -/
def PvHolding (t0 : ℚ) (s : OffsetState) : Prop :=
  s.current = 3 ∧ s.lastCandidate = some 1 ∧ s.candidateSince = some t0

lemma pv_step_holding (holdM t0 now : ℚ) (s : OffsetState) (hm : 0 < holdM)
    (hP : PvHolding t0 s) (hnow : now - t0 < holdM * 60) :
    pvCommitStep holdM 1 now s
      = { s with
          pending := some 1
          holdRemaining := max 0 (holdM * 60 - max 0 (now - t0)) } := by
  obtain ⟨hcur, hl, hc⟩ := hP
  have hhs : holdSecondsOf holdM = holdM * 60 := by
    unfold holdSecondsOf
    rw [max_eq_right hm.le]
  unfold pvCommitStep
  dsimp only
  rw [trackCandidate_stable 1 now s hl t0 hc, hcur, if_neg (by norm_num [PyClose]),
    if_neg (by norm_num [toleranceSign, PyClose]), hhs,
    holdOrCommit_holding (holdM * 60) 1 now t0 s hc (by positivity) hnow, hcur]

lemma pv_step_holding_P (holdM t0 now : ℚ) (s : OffsetState) (hm : 0 < holdM)
    (hP : PvHolding t0 s) (hnow : now - t0 < holdM * 60) :
    PvHolding t0 (pvCommitStep holdM 1 now s) := by
  rw [pv_step_holding holdM t0 now s hm hP hnow]
  exact ⟨hP.1, hP.2.1, hP.2.2⟩

lemma pv_first_step_P (holdM t0 : ℚ) (s0 : OffsetState) (hm : 0 < holdM)
    (hcur : s0.current = 3) (hl : s0.lastCandidate ≠ some 1) :
    PvHolding t0 (pvCommitStep holdM 1 t0 s0) := by
  have hhs : holdSecondsOf holdM = holdM * 60 := by
    unfold holdSecondsOf
    rw [max_eq_right hm.le]
  unfold pvCommitStep
  dsimp only
  rw [trackCandidate_new 1 t0 s0 hl]
  have hcur2 : ({ s0 with lastCandidate := some 1, candidateSince := some t0 } : OffsetState).current = 3 := hcur
  rw [hcur2, if_neg (by norm_num [PyClose]),
    if_neg (by norm_num [toleranceSign, PyClose]), hhs,
    holdOrCommit_holding (holdM * 60) 1 t0 t0 _ rfl (by positivity) (by linarith)]
  exact ⟨rfl, rfl, rfl⟩

lemma pv_fold_P (holdM t0 : ℚ) (ts : List ℚ) (hm : 0 < holdM)
    (hts : ∀ t ∈ ts, t - t0 < holdM * 60) :
    ∀ s : OffsetState, PvHolding t0 s →
      PvHolding t0 (ts.foldl (fun s t => pvCommitStep holdM 1 t s) s) := by
  induction ts with
  | nil => intro s hP; exact hP
  | cons t ts ih =>
    intro s hP
    have ht := hts t (by simp)
    have hts' : ∀ t ∈ ts, t - t0 < holdM * 60 := fun x hx => hts x (by simp [hx])
    exact ih hts' _ (pv_step_holding_P holdM t0 t s hm hP ht)

lemma pv_final_commit (holdM t0 tN : ℚ) (s : OffsetState) (hm : 0 < holdM)
    (hP : PvHolding t0 s) (hN : holdM * 60 ≤ tN - t0) :
    (pvCommitStep holdM 1 tN s).current = 1 := by
  obtain ⟨hcur, hl, hc⟩ := hP
  have hhs : holdSecondsOf holdM = holdM * 60 := by
    unfold holdSecondsOf
    rw [max_eq_right hm.le]
  unfold pvCommitStep
  dsimp only
  rw [trackCandidate_stable 1 tN s hl t0 hc, hcur, if_neg (by norm_num [PyClose]),
    if_neg (by norm_num [toleranceSign, PyClose]), hhs,
    holdOrCommit_commit (holdM * 60) 1 tN t0 s hc hN]
  rfl

/-- C6: with a positive configured hold of `holdM` minutes and committed PV
offset `3.0`, a run of committed evaluations each computing the stable
candidate `1.0` keeps the committed value at `3.0` on the first evaluation
(at `t0`, when the candidate first appears) and on every further evaluation
strictly inside the hold window, and an evaluation at or after
`t0 + holdM * 60` commits `1.0`. -/
theorem C6_pv_relaxation_throttling (holdM t0 tN : ℚ) (ts : List ℚ) (s0 : OffsetState)
    (hm : 0 < holdM) (hcur : s0.current = 3) (hl : s0.lastCandidate ≠ some 1)
    (hts : ∀ t ∈ ts, t - t0 < holdM * 60) (hN : t0 + holdM * 60 ≤ tN) :
    (pvCommitStep holdM 1 t0 s0).current = 3
    ∧ (ts.foldl (fun s t => pvCommitStep holdM 1 t s) (pvCommitStep holdM 1 t0 s0)).current = 3
    ∧ (pvCommitStep holdM 1 tN
        (ts.foldl (fun s t => pvCommitStep holdM 1 t s) (pvCommitStep holdM 1 t0 s0))).current
      = 1 := by
  have h1 : PvHolding t0 (pvCommitStep holdM 1 t0 s0) := pv_first_step_P holdM t0 s0 hm hcur hl
  have h2 : PvHolding t0 (ts.foldl (fun s t => pvCommitStep holdM 1 t s) (pvCommitStep holdM 1 t0 s0)) :=
    pv_fold_P holdM t0 ts hm hts _ h1
  exact ⟨h1.1, h2.1, pv_final_commit holdM t0 tN _ hm h2 (by linarith)⟩

/-- Witness for `C6_pv_relaxation_throttling`: hold 1 minute, candidate first
seen at `t0 = 0`, held at `t = 10` and `t = 30` seconds, committed at
`t = 60` seconds. -/
theorem C6_pv_relaxation_throttling_witness :
    (pvCommitStep 1 1 0 ⟨3, none, none, none, 0⟩).current = 3
    ∧ ([10, 30].foldl (fun s t => pvCommitStep 1 1 t s) (pvCommitStep 1 1 0 ⟨3, none, none, none, 0⟩)).current = 3
    ∧ (pvCommitStep 1 1 60
        ([10, 30].foldl (fun s t => pvCommitStep 1 1 t s) (pvCommitStep 1 1 0 ⟨3, none, none, none, 0⟩))).current
      = 1 := by
  exact C6_pv_relaxation_throttling 1 0 60 [10, 30] ⟨3, none, none, none, 0⟩
    (by norm_num) rfl (by simp) (by norm_num) (by norm_num)

/-- The write-suppression state of the Write Coordinator: `_last_written`
and `_last_written_offsets` of `R290HeatPumpTemperatureCurveSensor`. -/
structure WriteState where
  lastWritten : Option ℚ
  lastPv : ℚ
  lastExternal : ℚ

/-- The condition `offsets_changed or value_changed or rounded_changed` of
`_maybe_write_target` (temperature_curve.py lines 626-635), evaluated when a
previous successful write `lw` exists. -/
def writeCond (lw lastPv lastExternal finalCmd pv external : ℚ) : Prop :=
  (pyRound3 pv ≠ pyRound3 lastPv ∨ pyRound3 external ≠ pyRound3 lastExternal)
  ∨ ¬ PyClose (1/20) finalCmd lw
  ∨ pyRound lw ≠ pyRound finalCmd

instance (lw lastPv lastExternal finalCmd pv external : ℚ) :
    Decidable (writeCond lw lastPv lastExternal finalCmd pv external) := by
  unfold writeCond
  infer_instance

/-- `write_needed` of `_maybe_write_target` (temperature_curve.py lines
622-635): write when no prior successful write exists, or `writeCond`. -/
def writeNeeded (s : WriteState) (finalCmd pv external : ℚ) : Prop :=
  match s.lastWritten with
  | none => True
  | some lw => writeCond lw s.lastPv s.lastExternal finalCmd pv external

instance (s : WriteState) (finalCmd pv external : ℚ) :
    Decidable (writeNeeded s finalCmd pv external) := by
  unfold writeNeeded
  exact match s.lastWritten with
  | none => isTrue trivial
  | some lw => inferInstance

/-- One evaluation of the write decision plus the state update performed
after a successful protocol write (temperature_curve.py lines 636-643):
returns the new state and whether a write was issued. -/
def writeStep (s : WriteState) (finalCmd pv external : ℚ) : WriteState × Bool :=
  if writeNeeded s finalCmd pv external then (⟨some finalCmd, pv, external⟩, true)
  else (s, false)

lemma writeNeeded_none (lpv lext f pv e : ℚ) :
    writeNeeded ⟨none, lpv, lext⟩ f pv e ↔ True := Iff.rfl

lemma writeNeeded_some (lw lpv lext f pv e : ℚ) :
    writeNeeded ⟨some lw, lpv, lext⟩ f pv e ↔ writeCond lw lpv lext f pv e := Iff.rfl

/-- C7 (amended): a protocol write is issued iff no prior successful write
exists, or the rounded combined setpoint differs from the rounded
last-written value, or either offset component differs at three-decimal
rounding, **or the unrounded combined setpoint is not within the
`isclose(abs_tol=0.05)` tolerance of the last written value**; consequently
a second evaluation right after a successful write with the same rounded
setpoint, unchanged offset components and a setpoint within that tolerance
issues no write. -/
theorem C7_write_suppression (s : WriteState) (f pv e : ℚ) :
    ((writeStep s f pv e).2 = true ↔
      s.lastWritten = none
      ∨ ∃ lw, s.lastWritten = some lw
          ∧ (pyRound lw ≠ pyRound f
             ∨ pyRound3 pv ≠ pyRound3 s.lastPv
             ∨ pyRound3 e ≠ pyRound3 s.lastExternal
             ∨ ¬ PyClose (1/20) f lw))
    ∧ (∀ f2 pv2 e2 : ℚ, (writeStep s f pv e).2 = true →
        pyRound f2 = pyRound f → pyRound3 pv2 = pyRound3 pv → pyRound3 e2 = pyRound3 e →
        PyClose (1/20) f2 f →
        (writeStep (writeStep s f pv e).1 f2 pv2 e2).2 = false) := by
  constructor
  · obtain ⟨olw, lpv, lext⟩ := s
    rcases olw with _ | lw
    · simp [writeStep, writeNeeded_none]
    · constructor
      · intro h
        refine Or.inr ⟨lw, rfl, ?_⟩
        by_cases hc : writeCond lw lpv lext f pv e
        · unfold writeCond at hc
          tauto
        · unfold writeStep at h
          rw [if_neg (by rw [writeNeeded_some]; exact hc)] at h
          exact absurd h (by simp)
      · intro h
        have hc : writeCond lw lpv lext f pv e := by
          rcases h with h | ⟨lw2, hlw2, h⟩
          · exact absurd h (by simp)
          · have heq : lw = lw2 := by
              have := hlw2
              simp only at this
              exact Option.some.inj this
            subst heq
            unfold writeCond
            tauto
        unfold writeStep
        rw [if_pos (by rw [writeNeeded_some]; exact hc)]
  · intro f2 pv2 e2 hw hr hp he hcl
    have hstate : (writeStep s f pv e).1 = ⟨some f, pv, e⟩ := by
      unfold writeStep at hw ⊢
      by_cases hc : writeNeeded s f pv e
      · rw [if_pos hc]
      · rw [if_neg hc] at hw
        exact absurd hw (by simp)
    rw [hstate]
    unfold writeStep
    rw [if_neg ?hno]
    case hno =>
      rw [writeNeeded_some]
      unfold writeCond
      rintro ((h | h) | h | h)
      · exact h hp
      · exact h he
      · exact h hcl
      · exact h hr.symm

/-- C7 counterexample: with last written value `37.3`, offsets `(0, 0)`, a
new evaluation computing combined setpoint `37.4` with the same offsets has
the same rounded setpoint (`37`) and unchanged offsets — the claim's
condition says no write — yet the code issues a write because
`|37.4 - 37.3| > 0.05`. -/
theorem C7_counterexample :
    pyRound (374/10) = pyRound (373/10)
    ∧ (writeStep ⟨some (373/10), 0, 0⟩ (374/10) 0 0).2 = true := by
  constructor
  · norm_num [pyRound]
  · unfold writeStep
    rw [if_pos ?hc]
    case hc =>
      rw [writeNeeded_some]
      unfold writeCond
      refine Or.inr (Or.inl ?_)
      unfold PyClose
      rw [not_le, show (374/10:ℚ) - 373/10 = 1/10 by norm_num,
        abs_of_nonneg (show (0:ℚ) ≤ 1/10 by norm_num),
        abs_of_nonneg (show (0:ℚ) ≤ 374/10 by norm_num),
        abs_of_nonneg (show (0:ℚ) ≤ 373/10 by norm_num),
        max_eq_left (show (373/10:ℚ) ≤ 374/10 by norm_num)]
      exact max_lt (by norm_num) (by norm_num)

/-- Witness for `C7_write_suppression`: from no prior write, an evaluation
at `37.5` writes, and an immediately repeated identical evaluation does not. -/
theorem C7_write_suppression_witness :
    (writeStep ⟨none, 0, 0⟩ (375/10) 0 0).2 = true
    ∧ (writeStep (writeStep ⟨none, 0, 0⟩ (375/10) 0 0).1 (375/10) 0 0).2 = false := by
  have h := C7_write_suppression ⟨none, 0, 0⟩ (375/10) 0 0
  have h1 : (writeStep ⟨none, 0, 0⟩ (375/10) 0 0).2 = true := h.1.mpr (Or.inl rfl)
  refine ⟨h1, h.2 (375/10) 0 0 h1 rfl rfl rfl ?_⟩
  unfold PyClose
  rw [sub_self, abs_zero]
  exact le_max_of_le_right (by norm_num)

/-- One block read of a poll cycle (hub.py lines 364-369): on success
(`read` returns the register list) every address of the block receives its
register value — Python assigns `result[addr] = regs[offset]` in ascending
offset order, so with a short register list the addresses up to
`regs.length` are written before the lookup raises, and the exception is
swallowed per block; on failure (`read` returns `none`, i.e.
`async_read_block` raised) the accumulated result is left untouched. -/
def applyBlock (read : Nat → Nat → Option (List ℤ)) (acc : Nat → Option ℤ)
    (b : Nat × Nat) : Nat → Option ℤ :=
  match read b.1 b.2 with
  | none => acc
  | some regs => fun a =>
      if b.1 ≤ a ∧ a < b.1 + min b.2 regs.length then regs.get? (a - b.1) else acc a

/-- One poll cycle of `ModbusBatchCoordinator._async_update_data` (hub.py
lines 350-372): starting from the **empty** dict `result = {}`, each
coalesced block is read in order and its addresses filled in; the returned
mapping then replaces the coordinator's published snapshot. -/
def runCycle (read : Nat → Nat → Option (List ℤ)) (blocks : List (Nat × Nat)) :
    Nat → Option ℤ :=
  blocks.foldl (applyBlock read) (fun _ => none)

lemma coalesce_pairwise (maxCount : Nat) (l : List Nat) (hs : List.Sorted (· < ·) l) :
    (coalesce maxCount l).Pairwise (fun b c => b.1 + b.2 ≤ c.1) := by
  cases l with
  | nil => simp [coalesce]
  | cons a rest => exact scanBlocks_pairwise maxCount rest a a (le_refl a) hs

lemma coalesce_counts (maxCount : Nat) (l : List Nat) (hm : 1 ≤ maxCount) :
    ∀ b ∈ coalesce maxCount l, 1 ≤ b.2 ∧ b.2 ≤ maxCount := by
  cases l with
  | nil => simp [coalesce]
  | cons a rest =>
    exact scanBlocks_counts maxCount rest a a (le_refl a) (by omega) hm

lemma foldl_applyBlock_outside (read : Nat → Nat → Option (List ℤ)) :
    ∀ (blocks : List (Nat × Nat)) (acc : Nat → Option ℤ) (a : Nat),
      (∀ c ∈ blocks, a < c.1 ∨ c.1 + c.2 ≤ a) →
      blocks.foldl (applyBlock read) acc a = acc a
  | [], acc, a, _ => rfl
  | c :: blocks, acc, a, h => by
      have hc := h c (by simp)
      have hrest : ∀ d ∈ blocks, a < d.1 ∨ d.1 + d.2 ≤ a := fun d hd => h d (by simp [hd])
      rw [List.foldl_cons, foldl_applyBlock_outside read blocks _ a hrest]
      unfold applyBlock
      cases read c.1 c.2 with
      | none => rfl
      | some regs =>
        have : ¬ (c.1 ≤ a ∧ a < c.1 + min c.2 regs.length) := by
          rcases hc with hc | hc
          · omega
          · have : min c.2 regs.length ≤ c.2 := min_le_left _ _
            omega
        simp only [if_neg this]

lemma foldl_applyBlock_lookup (read : Nat → Nat → Option (List ℤ)) :
    ∀ (blocks : List (Nat × Nat)) (acc : Nat → Option ℤ) (b : Nat × Nat),
      b ∈ blocks →
      blocks.Pairwise (fun b c => b.1 + b.2 ≤ c.1) →
      (∀ c ∈ blocks, 1 ≤ c.2) →
      ∀ a : Nat, b.1 ≤ a → a < b.1 + b.2 → acc a = none →
        blocks.foldl (applyBlock read) acc a
          = (match read b.1 b.2 with
             | none => none
             | some regs =>
                if a < b.1 + min b.2 regs.length then regs.get? (a - b.1) else none)
  | [], _, b, hb, _, _, _, _, _, _ => absurd hb (by simp)
  | c :: blocks, acc, b, hb, hdis, hcnt, a, ha1, ha2, hacc => by
      have hdis' := (List.pairwise_cons.mp hdis).2
      have hhead := (List.pairwise_cons.mp hdis).1
      rcases List.mem_cons.mp hb with hb | hb
      · subst hb
        rw [List.foldl_cons, foldl_applyBlock_outside read blocks _ a ?hout]
        case hout =>
          intro d hd
          have h1 := hhead d hd
          left
          omega
        unfold applyBlock
        cases read b.1 b.2 with
        | none => exact hacc
        | some regs =>
          dsimp only
          by_cases hin : a < b.1 + min b.2 regs.length
          · rw [if_pos (And.intro ha1 hin), if_pos hin]
          · have hnot : ¬ (b.1 ≤ a ∧ a < b.1 + min b.2 regs.length) := by
              intro hand
              exact hin hand.2
            rw [if_neg hnot, if_neg hin]
            exact hacc
      · have hc : c.1 + c.2 ≤ b.1 := hhead b hb
        rw [List.foldl_cons]
        refine foldl_applyBlock_lookup read blocks _ b hb hdis'
          (fun d hd => hcnt d (by simp [hd])) a ha1 ha2 ?_
        unfold applyBlock
        cases read c.1 c.2 with
        | none => exact hacc
        | some regs =>
          have : ¬ (c.1 ≤ a ∧ a < c.1 + min c.2 regs.length) := by
            have : min c.2 regs.length ≤ c.2 := min_le_left _ _
            omega
          simp only [if_neg this, hacc]

/-- C4 (amended): when one block read fails during a poll cycle, the
remaining blocks of the same cycle are still read — every address of a block
whose read succeeds (with a full-length register list) carries its newly
read register value in the returned mapping — but every address belonging to
the failed block is **absent** from the returned mapping (which replaces the
published snapshot), rather than retaining its last known value. -/
theorem C4_poll_failure_isolation (read : Nat → Nat → Option (List ℤ)) (maxCount : Nat)
    (l : List Nat) (hs : List.Sorted (· < ·) l) (hm : 1 ≤ maxCount) (b : Nat × Nat)
    (hb : b ∈ coalesce maxCount l) (a : Nat) (ha1 : b.1 ≤ a) (ha2 : a < b.1 + b.2) :
    (∀ regs, read b.1 b.2 = some regs → b.2 ≤ regs.length →
        runCycle read (coalesce maxCount l) a = regs.get? (a - b.1))
    ∧ (read b.1 b.2 = none → runCycle read (coalesce maxCount l) a = none) := by
  have hkey := foldl_applyBlock_lookup read (coalesce maxCount l) (fun _ => none) b hb
    (coalesce_pairwise maxCount l hs)
    (fun d hd => (coalesce_counts maxCount l hm d hd).1) a ha1 ha2 rfl
  constructor
  · intro regs hread hlen
    rw [runCycle, hkey, hread]
    dsimp only
    have hmin : min b.2 regs.length = b.2 := min_eq_left hlen
    rw [hmin, if_pos ha2]
  · intro hread
    rw [runCycle, hkey, hread]

/-- C4 counterexample: the previous snapshot maps address `5` to value `7`;
in the next cycle the (single) block read fails, and the returned mapping —
which replaces the snapshot — has **no entry** at address `5` instead of the
stale `7`: `_async_update_data` rebuilds `result` from `{}` and never
consults the previous snapshot. -/
theorem C4_counterexample :
    (fun a => if a = 5 then some (7:ℤ) else none) 5 = some 7
    ∧ runCycle (fun _ _ => none) (coalesce 20 [5]) 5 = none := by
  exact ⟨rfl, rfl⟩

/-- Witness for `C4_poll_failure_isolation` on addresses `[5, 6, 10]` with
block size `20`: blocks `(5,2)` and `(10,1)`; the read of `(5,2)` fails
while `(10,1)` returns `[42]` — address `10` is present with value `42`,
address `5` is absent. -/
theorem C4_poll_failure_isolation_witness :
    runCycle (fun s _ => if s = 10 then some [42] else none) (coalesce 20 [5, 6, 10]) 10
      = some 42
    ∧ runCycle (fun s _ => if s = 10 then some [42] else none) (coalesce 20 [5, 6, 10]) 5
      = none := by
  constructor
  · have h := (C4_poll_failure_isolation (fun s _ => if s = 10 then some [42] else none)
      20 [5, 6, 10] (by decide) (by decide) (10, 1) (by decide) 10 (by decide) (by decide)).1
    exact h [42] rfl (by decide)
  · have h := (C4_poll_failure_isolation (fun s _ => if s = 10 then some [42] else none)
      20 [5, 6, 10] (by decide) (by decide) (5, 2) (by decide) 5 (by decide) (by decide)).2
    exact h rfl

/-- A Python exception as seen by `async_pb_call`: a `TypeError` (signature
mismatch) or any other exception, with its message. -/
inductive PyExc
  | typeError (msg : String)
  | otherExc (msg : String)
deriving DecidableEq

/-- `_ResultWrapper` (hub.py lines 38-51): a register list (`None` collapses
to `[]`) plus an optional error. -/
structure ResultWrapper where
  registers : List ℤ
  error : Option PyExc
deriving DecidableEq

/-- `_ResultWrapper.isError` (hub.py lines 45-46). -/
def ResultWrapper.isError (r : ResultWrapper) : Bool := r.error.isSome

/-- The outcome of invoking one call-signature variant on the underlying
pymodbus client: it raises an exception, returns `None`, or returns a
response object with its `isError()` flag and optional `registers`
attribute. -/
inductive CallOutcome
  | raises (e : PyExc)
  | returnsNone
  | returns (isErr : Bool) (registers : Option (List ℤ))
deriving DecidableEq

/-- The variant loop of `async_pb_call` (hub.py lines 228-238 and 256-266):
variants are tried in order; only a `TypeError` (signature mismatch) moves
on to the next variant, recorded as `last_err`; any other exception
propagates out of the loop immediately; a non-`None` response breaks the
loop; with no response left (`result is None`) the recorded `last_err` (or
a fresh `TypeError` with `fallbackMsg`) is raised. -/
def tryVariants (fallbackMsg : String) :
    Option PyExc → List CallOutcome → Except PyExc (Bool × Option (List ℤ))
  | lastErr, [] => .error (lastErr.getD (.typeError fallbackMsg))
  | lastErr, o :: rest =>
    match o with
    | .raises (.typeError m) => tryVariants fallbackMsg (some (.typeError m)) rest
    | .raises e => .error e
    | .returnsNone => .error (lastErr.getD (.typeError fallbackMsg))
    | .returns isErr regs => .ok (isErr, regs)

/-- Wrapping of the read-path result (hub.py lines 239-242 and 273-275): a
propagated exception becomes an error wrapper; a protocol-error response
(`result.isError()`) becomes an error wrapper and is never treated as
registers; otherwise the `registers` attribute (`None` collapsing to `[]`)
is returned as a success wrapper. -/
def wrapReadResult : Except PyExc (Bool × Option (List ℤ)) → ResultWrapper
  | .error e => ⟨[], some e⟩
  | .ok (true, _) => ⟨[], some (.otherExc "protocol error response")⟩
  | .ok (false, regs) => ⟨regs.getD [], none⟩

/-- Wrapping of the write-path result (hub.py lines 267-269): a successful
write echoes `[count]` as the register list. -/
def wrapWriteResult (count : ℤ) : Except PyExc (Bool × Option (List ℤ)) → ResultWrapper
  | .error e => ⟨[], some e⟩
  | .ok (true, _) => ⟨[], some (.otherExc "protocol error response")⟩
  | .ok (false, _) => ⟨[count], none⟩

/-- The environment `async_pb_call` runs against: whether a client object is
already present, the result of `async_connect` when it must be invoked,
whether a client exists after connecting, and the outcome of each
call-signature variant on the read and write paths. -/
structure HubEnv where
  clientPresent : Bool
  connectRaises : Option PyExc
  clientAfterConnect : Bool
  readOutcomes : List CallOutcome
  writeOutcomes : List CallOutcome

/-- The guarded dispatch of `async_pb_call` once a client is available
(hub.py lines 211-275): read path, write path, or the unsupported-kind
`ValueError` wrapper. -/
def asyncPbCallConnected (env : HubEnv) (count : ℤ) (kind : String) : ResultWrapper :=
  if kind = "holding" then
    wrapReadResult
      (tryVariants "No compatible read_holding_registers signature" none env.readOutcomes)
  else if kind = "write_register" then
    wrapWriteResult count
      (tryVariants "No suitable write_register signature" none env.writeOutcomes)
  else ⟨[], some (.otherExc "Unsupported kind")⟩

/-- `R290HeatPumpModbusHub.async_pb_call` (hub.py lines 200-275): connect
lazily when no client exists (a connect failure is returned as an error
wrapper, a still-missing client as a `RuntimeError` wrapper), then dispatch
under the lock with every exception converted into an error wrapper. -/
def asyncPbCall (env : HubEnv) (count : ℤ) (kind : String) : ResultWrapper :=
  if env.clientPresent then asyncPbCallConnected env count kind
  else
    match env.connectRaises with
    | some e => ⟨[], some e⟩
    | none =>
      if env.clientAfterConnect then asyncPbCallConnected env count kind
      else ⟨[], some (.otherExc "Client not available")⟩

lemma tryVariants_skip (msg : String) :
    ∀ (pre : List CallOutcome) (lastErr : Option PyExc) (rest : List CallOutcome),
      (∀ x ∈ pre, ∃ m, x = CallOutcome.raises (PyExc.typeError m)) →
      ∃ le2, tryVariants msg lastErr (pre ++ rest) = tryVariants msg le2 rest
  | [], le, rest, _ => ⟨le, rfl⟩
  | x :: pre, le, rest, h => by
      obtain ⟨m, hm⟩ := h x (by simp)
      subst hm
      simp only [List.cons_append, tryVariants]
      exact tryVariants_skip msg pre _ rest (fun y hy => h y (by simp [hy]))

/-- C8: in the variant loop, only a signature mismatch (`TypeError`) causes
the next variant to be attempted: after any prefix of signature mismatches,
a variant raising any other exception makes that exception the call's error
result immediately (independently of the remaining variants), a variant
returning a response stops the loop (independently of the remaining
variants), and a protocol-error response (`isError()` true) is wrapped as an
error result — never surfaced as valid registers. -/
theorem C8_error_surfacing (msg : String) (pre post : List CallOutcome)
    (hpre : ∀ x ∈ pre, ∃ m, x = CallOutcome.raises (PyExc.typeError m)) :
    (∀ m, tryVariants msg none (pre ++ CallOutcome.raises (PyExc.otherExc m) :: post)
        = Except.error (PyExc.otherExc m))
    ∧ (∀ isErr regs, tryVariants msg none (pre ++ CallOutcome.returns isErr regs :: post)
        = Except.ok (isErr, regs))
    ∧ (∀ regs, (wrapReadResult (Except.ok (true, regs))).isError = true
        ∧ (wrapReadResult (Except.ok (true, regs))).registers = []) := by
  refine ⟨?_, ?_, fun regs => ⟨rfl, rfl⟩⟩
  · intro m
    obtain ⟨le2, hskip⟩ := tryVariants_skip msg pre none
      (CallOutcome.raises (PyExc.otherExc m) :: post) hpre
    rw [hskip]
    rfl
  · intro isErr regs
    obtain ⟨le2, hskip⟩ := tryVariants_skip msg pre none
      (CallOutcome.returns isErr regs :: post) hpre
    rw [hskip]
    rfl

/-- Witness for `C8_error_surfacing`: two signature mismatches, then an I/O
error (surfaced) or a response (loop stops). -/
theorem C8_error_surfacing_witness :
    tryVariants "m" none
        ([CallOutcome.raises (PyExc.typeError "a"), CallOutcome.raises (PyExc.typeError "b")]
          ++ CallOutcome.raises (PyExc.otherExc "io") :: [CallOutcome.returns false (some [1])])
      = Except.error (PyExc.otherExc "io")
    ∧ tryVariants "m" none
        ([CallOutcome.raises (PyExc.typeError "a"), CallOutcome.raises (PyExc.typeError "b")]
          ++ CallOutcome.returns true none :: [])
      = Except.ok (true, none) := by
  have hpre : ∀ x ∈ [CallOutcome.raises (PyExc.typeError "a"),
      CallOutcome.raises (PyExc.typeError "b")],
      ∃ m, x = CallOutcome.raises (PyExc.typeError m) := by
    intro x hx
    rcases List.mem_cons.mp hx with rfl | hx
    · exact ⟨"a", rfl⟩
    rcases List.mem_cons.mp hx with rfl | hx
    · exact ⟨"b", rfl⟩
    · exact absurd hx (List.not_mem_nil x)
  have h := C8_error_surfacing "m"
    [CallOutcome.raises (PyExc.typeError "a"), CallOutcome.raises (PyExc.typeError "b")]
    [CallOutcome.returns false (some [1])] hpre
  have h2 := C8_error_surfacing "m"
    [CallOutcome.raises (PyExc.typeError "a"), CallOutcome.raises (PyExc.typeError "b")]
    [] hpre
  exact ⟨h.1 "io", h2.2.1 true none⟩

lemma wrapReadResult_shape (r : Except PyExc (Bool × Option (List ℤ))) :
    (wrapReadResult r).isError = true ∨ ∃ regs, wrapReadResult r = ⟨regs, none⟩ := by
  rcases r with e | ⟨isErr, regs⟩
  · left; rfl
  · cases isErr
    · right; exact ⟨regs.getD [], rfl⟩
    · left; rfl

lemma wrapWriteResult_shape (count : ℤ) (r : Except PyExc (Bool × Option (List ℤ))) :
    (wrapWriteResult count r).isError = true ∨ ∃ regs, wrapWriteResult count r = ⟨regs, none⟩ := by
  rcases r with e | ⟨isErr, regs⟩
  · left; rfl
  · cases isErr
    · right; exact ⟨[count], rfl⟩
    · left; rfl

lemma asyncPbCallConnected_shape (env : HubEnv) (count : ℤ) (kind : String) :
    (asyncPbCallConnected env count kind).isError = true
      ∨ ∃ regs, asyncPbCallConnected env count kind = ⟨regs, none⟩ := by
  unfold asyncPbCallConnected
  split_ifs with h1 h2
  · exact wrapReadResult_shape _
  · exact wrapWriteResult_shape count _
  · left; rfl

lemma asyncPbCallConnected_badkind (env : HubEnv) (count : ℤ) (kind : String)
    (hk1 : kind ≠ "holding") (hk2 : kind ≠ "write_register") :
    asyncPbCallConnected env count kind
      = ⟨[], some (PyExc.otherExc "Unsupported kind")⟩ := by
  unfold asyncPbCallConnected
  rw [if_neg hk1, if_neg hk2]

/-- C9: `async_pb_call` is total (every exception path is converted into a
returned wrapper): for every environment and input its result is either an
error wrapper (`isError()` true) or a success wrapper carrying a register
list; a kind other than `"holding"`/`"write_register"` always yields an
error wrapper, and a failed lazy connect yields an error wrapper carrying
the connect exception. -/
theorem C9_call_totality (env : HubEnv) (count : ℤ) (kind : String) :
    ((asyncPbCall env count kind).isError = true
      ∨ ∃ regs, asyncPbCall env count kind = ⟨regs, none⟩)
    ∧ (kind ≠ "holding" → kind ≠ "write_register" →
        (asyncPbCall env count kind).isError = true)
    ∧ (∀ e, env.clientPresent = false → env.connectRaises = some e →
        asyncPbCall env count kind = ⟨[], some e⟩) := by
  have hcases : asyncPbCall env count kind = asyncPbCallConnected env count kind
      ∨ (asyncPbCall env count kind).isError = true := by
    unfold asyncPbCall
    by_cases h1 : env.clientPresent
    · rw [if_pos h1]
      left; rfl
    · rw [if_neg h1]
      rcases henv : env.connectRaises with _ | e
      · dsimp only
        by_cases h2 : env.clientAfterConnect
        · rw [if_pos h2]
          left; rfl
        · rw [if_neg h2]
          right; rfl
      · right; rfl
  refine ⟨?_, ?_, ?_⟩
  · rcases hcases with h | h
    · rw [h]
      exact asyncPbCallConnected_shape env count kind
    · exact Or.inl h
  · intro hk1 hk2
    rcases hcases with h | h
    · rw [h, asyncPbCallConnected_badkind env count kind hk1 hk2]
      rfl
    · exact h
  · intro e hcp hcr
    unfold asyncPbCall
    rw [hcp, hcr]
    rfl

/-- Witness for `C9_call_totality`: with no client, a failing connect and an
unsupported kind, the result is the connect error wrapper. -/
theorem C9_call_totality_witness :
    ((asyncPbCall ⟨false, some (PyExc.otherExc "boom"), false, [], []⟩ 0 "bogus").isError = true
      ∨ ∃ regs, asyncPbCall ⟨false, some (PyExc.otherExc "boom"), false, [], []⟩ 0 "bogus"
          = ⟨regs, none⟩)
    ∧ asyncPbCall ⟨false, some (PyExc.otherExc "boom"), false, [], []⟩ 0 "bogus"
        = ⟨[], some (PyExc.otherExc "boom")⟩ := by
  have h := C9_call_totality ⟨false, some (PyExc.otherExc "boom"), false, [], []⟩ 0 "bogus"
  exact ⟨h.1, h.2.2 (PyExc.otherExc "boom") rfl rfl⟩

/-- The clamping of the configured maximum block size applied by
`ModbusBatchCoordinator.__init__` (hub.py line 340), `ModbusBatchManager`
(line 391) and `update_batch_params` (line 436):
`max(1, min(125, int(block_size)))`. -/
def clampBlockSize (blockSize : ℤ) : ℤ := max 1 (min 125 blockSize)

/-- The clamping of the inter-block pause, `max(0.0, float(block_pause))`
(hub.py lines 341, 392 and 438). -/
def clampPause (blockPause : ℚ) : ℚ := max 0 blockPause

/-- The effective `(_max_count, _pause)` parameters of a batch
coordinator. -/
structure BatchParams where
  maxCount : ℤ
  pause : ℚ

/-- `ModbusBatchCoordinator.__init__` (hub.py lines 340-341). -/
def coordinatorInit (blockSize : ℤ) (blockPause : ℚ) : BatchParams :=
  ⟨clampBlockSize blockSize, clampPause blockPause⟩

/-- `ModbusBatchManager.update_batch_params` (hub.py lines 434-443) as it
affects one coordinator: a `None` argument leaves the parameter unchanged;
a given value is clamped and propagated to `coord._max_count` /
`coord._pause`. -/
def updateBatchParams (s : BatchParams) (blockSize : Option ℤ) (blockPause : Option ℚ) :
    BatchParams :=
  ⟨match blockSize with
    | none => s.maxCount
    | some b => clampBlockSize b,
   match blockPause with
    | none => s.pause
    | some p => clampPause p⟩

lemma clampBlockSize_bounds (b : ℤ) : 1 ≤ clampBlockSize b ∧ clampBlockSize b ≤ 125 := by
  unfold clampBlockSize
  constructor
  · exact le_max_left _ _
  · exact max_le (by norm_num) (min_le_left _ _)

lemma clampPause_nonneg (p : ℚ) : 0 ≤ clampPause p := le_max_left _ _

lemma updateBatchParams_invariant (s : BatchParams) (u : Option ℤ × Option ℚ)
    (h : 1 ≤ s.maxCount ∧ s.maxCount ≤ 125 ∧ 0 ≤ s.pause) :
    1 ≤ (updateBatchParams s u.1 u.2).maxCount
    ∧ (updateBatchParams s u.1 u.2).maxCount ≤ 125
    ∧ 0 ≤ (updateBatchParams s u.1 u.2).pause := by
  obtain ⟨ob, op⟩ := u
  obtain ⟨h1, h2, h3⟩ := h
  refine ⟨?_, ?_, ?_⟩ <;> unfold updateBatchParams <;> dsimp only
  · rcases ob with _ | b
    · exact h1
    · exact (clampBlockSize_bounds b).1
  · rcases ob with _ | b
    · exact h2
    · exact (clampBlockSize_bounds b).2
  · rcases op with _ | p
    · exact h3
    · exact clampPause_nonneg p

lemma batchParams_foldl_invariant (updates : List (Option ℤ × Option ℚ)) :
    ∀ s : BatchParams, 1 ≤ s.maxCount ∧ s.maxCount ≤ 125 ∧ 0 ≤ s.pause →
      1 ≤ (updates.foldl (fun s u => updateBatchParams s u.1 u.2) s).maxCount
      ∧ (updates.foldl (fun s u => updateBatchParams s u.1 u.2) s).maxCount ≤ 125
      ∧ 0 ≤ (updates.foldl (fun s u => updateBatchParams s u.1 u.2) s).pause := by
  induction updates with
  | nil => exact fun s h => h
  | cons u updates ih =>
    intro s h
    rw [List.foldl_cons]
    exact ih _ (updateBatchParams_invariant s u h)

/-- C10: starting from any constructor arguments and after any sequence of
`update_batch_params` calls, the effective maximum block size is within
`[1, 125]` and the inter-block pause is nonnegative; consequently every
block produced by the coalescing step requests at most 125 registers. -/
theorem C10_batch_params_clamped (blockSize : ℤ) (blockPause : ℚ)
    (updates : List (Option ℤ × Option ℚ)) :
    (1 ≤ (updates.foldl (fun s u => updateBatchParams s u.1 u.2)
          (coordinatorInit blockSize blockPause)).maxCount
      ∧ (updates.foldl (fun s u => updateBatchParams s u.1 u.2)
          (coordinatorInit blockSize blockPause)).maxCount ≤ 125
      ∧ 0 ≤ (updates.foldl (fun s u => updateBatchParams s u.1 u.2)
          (coordinatorInit blockSize blockPause)).pause)
    ∧ (∀ l : List Nat, List.Sorted (· < ·) l →
        ∀ b ∈ coalesce (updates.foldl (fun s u => updateBatchParams s u.1 u.2)
            (coordinatorInit blockSize blockPause)).maxCount.toNat l,
          1 ≤ b.2 ∧ b.2 ≤ 125) := by
  have hinv := batchParams_foldl_invariant updates (coordinatorInit blockSize blockPause)
    ⟨(clampBlockSize_bounds blockSize).1, (clampBlockSize_bounds blockSize).2,
      clampPause_nonneg blockPause⟩
  refine ⟨hinv, ?_⟩
  intro l hsort b hb
  have hm : 1 ≤ (updates.foldl (fun s u => updateBatchParams s u.1 u.2)
      (coordinatorInit blockSize blockPause)).maxCount.toNat := by omega
  have hcnt := coalesce_counts _ l hm b hb
  omega

/-- Witness for `C10_batch_params_clamped`: constructor value `1000` and a
later `update_batch_params(block_size=200, block_pause=-1)` clamp to
`(125, 0)`, and the single block for addresses `[5, 6]` has count `2 ≤ 125`. -/
theorem C10_batch_params_clamped_witness :
    1 ≤ ([((some 200 : Option ℤ), (some (-1) : Option ℚ))].foldl
          (fun s u => updateBatchParams s u.1 u.2) (coordinatorInit 1000 (-5))).maxCount
    ∧ (∀ b ∈ coalesce ([((some 200 : Option ℤ), (some (-1) : Option ℚ))].foldl
          (fun s u => updateBatchParams s u.1 u.2)
          (coordinatorInit 1000 (-5))).maxCount.toNat [5, 6],
        1 ≤ b.2 ∧ b.2 ≤ 125) := by
  have h := C10_batch_params_clamped 1000 (-5) [(some 200, some (-1))]
  exact ⟨h.1.1, h.2 [5, 6] (by decide)⟩

end R290

